import Mathlib

/-
Verification of the regen-ledger ecocredit accounting core.

Shallow embedding of:
  - the balance-mutation protocols Send (x/ecocredit/server/core/send.go),
    Cancel (x/ecocredit/server/core/cancel.go) and Retire
    (the core keeper file among the unnamed sources, part_001);
  - the genesis supply validator validateSupply (x/ecocredit/core/genesis.go);
  - Batch.Validate (x/ecocredit/core/genesis.go).

Amount fields are carried in Go as decimal strings and parsed into exact
fixed-point decimals by the types/math library (not among the sources).
Here every amount is an exact rational; the parse step keeps the spec's
side conditions (non-negative, fractional digit count bounded by the
credit-type precision).  The Go zero value "" of an omitted string field
is the amount 0, exactly as the genesis reader treats it.
-/

namespace RegenLedger

/-- Error kinds surfaced by the core.  Each constructor stands for one of the
wrapped errors the source returns; constructors carrying a batch id stand for
the genesis errors that name the offending credit batch. -/
inductive Err where
  | notFound
  | invalidRequest
  | insufficientCredits
  | insufficientBalance
  | invalidAmount
  | precisionExceeded
  | supplyIncorrect (batchId : Nat)
  | supplyNotFound (batchId : Nat)
  | supplyNoBalances
  | balancesNoSupply
  deriving DecidableEq, Repr

/-- NNFixed p q: q is representable as a non-negative fixed-point decimal with
at most p fractional digits (the condition NewNonNegativeFixedDecFromString
enforces). -/
abbrev NNFixed (p : Nat) (q : ℚ) : Prop := 0 ≤ q ∧ (q * (10 : ℚ) ^ p).den = 1

/-- Modelled from the spec: the decimal engine's parse
(math.NewNonNegativeFixedDecFromString, not among the sources) rejects
negative values with kind InvalidAmount and values with more fractional
digits than the precision with kind PrecisionExceeded. -/
def parseNonNegFixed (p : Nat) (q : ℚ) : Except Err ℚ :=
  if q < 0 then .error .invalidAmount
  else if (q * (10 : ℚ) ^ p).den ≠ 1 then .error .precisionExceeded
  else .ok q

/-- Modelled from the spec: math.SafeSubBalance (not among the sources) fails
with kind InsufficientBalance when the subtrahend exceeds the minuend,
otherwise returns the exact difference. -/
def safeSub (a b : ℚ) : Except Err ℚ :=
  if a < b then .error .insufficientBalance else .ok (a - b)

/-- Modelled from the spec: the decimal engine's arithmetic is exact
(spec section 4.1).  Dec.Sub of the source's math library (not among the
sources) is the exact difference without SafeSubBalance's balance guard;
send.go line 118 uses it for the batch supply tradable decrement. -/
def decSub (a b : ℚ) : ℚ := a - b

/-- utils.GetNonNegativeFixedDecs (not among the sources) parses every listed
amount at the given precision, failing on the first bad one. -/
def parseAll (p : Nat) : List ℚ → Except Err Unit
  | [] => .ok ()
  | q :: rest =>
    match parseNonNegFixed p q with
    | .error e => .error e
    | .ok _ => parseAll p rest

/-- Association-list get, the keyed point lookup of the store interface. -/
def aget {α β : Type} [DecidableEq α] : List (α × β) → α → Option β
  | [], _ => none
  | (k, v) :: rest, a => if k = a then some v else aget rest a

/-- Association-list set: replace the record under the key, inserting it when
missing (the ORM Save; Update is only called on keys just read, where it
coincides). -/
def aset {α β : Type} [DecidableEq α] : List (α × β) → α → β → List (α × β)
  | [], a, b => [(a, b)]
  | (k, v) :: rest, a, b => if k = a then (a, b) :: rest else (k, v) :: aset rest a b

theorem aget_aset_eq {α β : Type} [DecidableEq α] (l : List (α × β)) (a : α) (b : β) :
    aget (aset l a b) a = some b := by
  induction l with
  | nil => simp [aget, aset]
  | cons hd tl ih =>
    obtain ⟨k, v⟩ := hd
    by_cases h : k = a
    · simp [aget, aset, h]
    · simp [aget, aset, h, ih]

theorem aget_aset_ne {α β : Type} [DecidableEq α] (l : List (α × β)) (a a' : α) (b : β)
    (h : a ≠ a') : aget (aset l a b) a' = aget l a' := by
  induction l with
  | nil => simp [aget, aset, h]
  | cons hd tl ih =>
    obtain ⟨k, v⟩ := hd
    by_cases hk : k = a
    · subst hk
      simp [aget, aset, h]
    · by_cases hk' : k = a'
      · subst hk'
        simp [aget, aset, hk, Ne.symm h]
      · simp [aget, aset, hk, hk', ih]

theorem aget_mem {α β : Type} [DecidableEq α] {l : List (α × β)} {a : α} {b : β}
    (h : aget l a = some b) : (a, b) ∈ l := by
  induction l with
  | nil => simp [aget] at h
  | cons hd tl ih =>
    obtain ⟨k, v⟩ := hd
    by_cases hk : k = a
    · subst hk
      simp [aget] at h
      simp [h]
    · simp [aget, hk] at h
      exact List.mem_cons_of_mem _ (ih h)

theorem mem_aset {α β : Type} [DecidableEq α] {l : List (α × β)} {a : α} {b : β}
    {p : α × β} (h : p ∈ aset l a b) : p = (a, b) ∨ p ∈ l := by
  induction l with
  | nil => simp [aset] at h; simp [h]
  | cons hd tl ih =>
    obtain ⟨k, v⟩ := hd
    by_cases hk : k = a
    · subst hk
      simp [aset] at h
      rcases h with h | h
      · exact Or.inl h
      · exact Or.inr (List.mem_cons_of_mem _ h)
    · simp [aset, hk] at h
      rcases h with h | h
      · exact Or.inr (by simp [h])
      · rcases ih h with h' | h'
        · exact Or.inl h'
        · exact Or.inr (List.mem_cons_of_mem _ h')

theorem parseNonNegFixed_ok {p : Nat} {q q' : ℚ} :
    parseNonNegFixed p q = .ok q' ↔ NNFixed p q ∧ q' = q := by
  unfold parseNonNegFixed
  by_cases h1 : q < 0
  · simp only [if_pos h1]
    constructor
    · intro h; cases h
    · rintro ⟨⟨h, -⟩, -⟩; exact absurd h1 (not_lt.mpr h)
  · by_cases h2 : (q * (10 : ℚ) ^ p).den = 1
    · simp [h1, h2, NNFixed, not_lt.mp h1, eq_comm]
    · simp [h1, h2, NNFixed]

theorem parseAll_ok {p : Nat} {l : List ℚ} :
    parseAll p l = .ok () ↔ ∀ q ∈ l, NNFixed p q := by
  induction l with
  | nil => simp [parseAll]
  | cons q rest ih =>
    unfold parseAll
    constructor
    · intro h
      cases hq : parseNonNegFixed p q with
      | error e => rw [hq] at h; cases h
      | ok q' =>
        rw [hq] at h
        intro x hx
        rcases List.mem_cons.mp hx with rfl | hx'
        · exact (parseNonNegFixed_ok.mp hq).1
        · exact (ih.mp h) x hx'
    · intro h
      have hq : parseNonNegFixed p q = .ok q :=
        parseNonNegFixed_ok.mpr ⟨h q (List.mem_cons_self q rest), rfl⟩
      rw [hq]
      exact ih.mpr (fun x hx => h x (List.mem_cons_of_mem _ hx))

/-- Modelled from the spec: the batch resolved by denom together with the
credit-type precision obtained through the project -> class -> creditType
chain (utils.GetCreditTypeFromBatchDenom is not among the sources); the chain
is collapsed into the precision field carried on the batch record. -/
structure BatchRec where
  key : Nat
  denom : String
  precision : Nat
  deriving DecidableEq, Repr

/-- BatchBalance record: per (holder, batch) tradable, retired and escrowed
amounts. -/
structure BalRec where
  tradable : ℚ
  retired : ℚ
  escrowed : ℚ
  deriving DecidableEq, Repr

/-- BatchSupply record: per batch tradable, retired and cancelled supply. -/
structure SupRec where
  tradable : ℚ
  retired : ℚ
  cancelled : ℚ
  deriving DecidableEq, Repr

/-- Account addresses, abstracted: the protocols only compare them as keys. -/
abbrev Addr := Nat

/-- The ecocredit store: batch records (with resolved precision), balances
keyed by (holder, batch key), supplies keyed by batch key, and the read-only
basket balances keyed by batch denom. -/
structure State where
  batches : List BatchRec
  balances : List ((Addr × Nat) × BalRec)
  supplies : List (Nat × SupRec)
  baskets : List (String × ℚ)
  deriving DecidableEq, Repr

/-- BatchTable().GetByDenom. -/
def getBatchByDenom (s : State) (d : String) : Option BatchRec :=
  s.batches.find? (fun b => b.denom == d)

/-- Events emitted to the surrounding environment. -/
inductive Event where
  | transfer (sender recipient : Addr) (batchDenom : String) (tradableAmount retiredAmount : ℚ)
  | retire (owner : Addr) (batchDenom : String) (amount : ℚ) (jurisdiction : String)
  | cancel (owner : Addr) (batchDenom : String) (amount : ℚ) (reason : String)
  deriving DecidableEq, Repr

/-- One entry of MsgSend.Credits. -/
structure SendCredits where
  batchDenom : String
  tradableAmount : ℚ
  retiredAmount : ℚ
  retirementJurisdiction : String
  deriving DecidableEq, Repr

structure MsgSend where
  sender : Addr
  recipient : Addr
  credits : List SendCredits
  deriving DecidableEq, Repr

/-- One entry of MsgRetire.Credits / MsgCancel.Credits. -/
structure CreditsEntry where
  batchDenom : String
  amount : ℚ
  deriving DecidableEq, Repr

structure MsgRetire where
  owner : Addr
  credits : List CreditsEntry
  jurisdiction : String
  deriving DecidableEq, Repr

structure MsgCancel where
  owner : Addr
  credits : List CreditsEntry
  reason : String
  deriving DecidableEq, Repr

/-- Keeper.sendEcocredits (send.go lines 47-162).  Resolves the batch and
precision, loads supply and both balances (the recipient defaulting to
all-zero, as in send.go lines 70-82), parses the eight relevant amounts,
debits the sender's tradable pool by both components, credits the recipient,
and on retirement moves the amount from the supply's tradable to its retired
pool - the tradable decrement via the unguarded Dec.Sub (line 118).  The
written balance records carry only tradable and retired amounts, exactly as
the struct literals at lines 124-141 do: the stored escrowed amount becomes
the zero value.  Returns the follow-up events emitted inside the call (the
retirement event of lines 152-159). -/
def sendEcocredits (s : State) (credit : SendCredits) (toA frA : Addr) :
    Except Err (State × List Event) :=
  match getBatchByDenom s credit.batchDenom with
  | none => .error .invalidRequest
  | some batch =>
    match aget s.supplies batch.key with
    | none => .error .notFound
    | some batchSupply =>
      match aget s.balances (frA, batch.key) with
      | none => .error .insufficientCredits
      | some fromBalance =>
        let toBalance := (aget s.balances (toA, batch.key)).getD ⟨0, 0, 0⟩
        match parseAll batch.precision [toBalance.tradable, toBalance.retired,
            fromBalance.tradable, fromBalance.retired, credit.tradableAmount,
            credit.retiredAmount, batchSupply.tradable, batchSupply.retired] with
        | .error e => .error e
        | .ok _ =>
          match (if credit.tradableAmount = 0 then
                   Except.ok (fromBalance.tradable, toBalance.tradable)
                 else
                   match safeSub fromBalance.tradable credit.tradableAmount with
                   | .error e => .error e
                   | .ok ft => .ok (ft, toBalance.tradable + credit.tradableAmount)) with
          | .error e => .error e
          | .ok (ft1, tt1) =>
            if credit.retiredAmount = 0 then
              let nb := aset (aset s.balances (toA, batch.key) ⟨tt1, toBalance.retired, 0⟩)
                (frA, batch.key) ⟨ft1, fromBalance.retired, 0⟩
              .ok ({ s with balances := nb }, [])
            else
              match safeSub ft1 credit.retiredAmount with
              | .error e => .error e
              | .ok ft2 =>
                let nb := aset (aset s.balances (toA, batch.key)
                    ⟨tt1, toBalance.retired + credit.retiredAmount, 0⟩)
                  (frA, batch.key) ⟨ft2, fromBalance.retired, 0⟩
                let ns := aset s.supplies batch.key
                  ⟨decSub batchSupply.tradable credit.retiredAmount,
                   batchSupply.retired + credit.retiredAmount,
                   batchSupply.cancelled⟩
                .ok ({ s with balances := nb, supplies := ns },
                     [Event.retire toA credit.batchDenom credit.retiredAmount
                        credit.retirementJurisdiction])

/-- The per-entry loop shared by the three keeper methods: process entries in
list order, abort on the first failing entry, concatenate the emitted
events. -/
def creditLoop {α : Type} (f : State → α → Except Err (State × List Event)) :
    State → List α → Except Err (State × List Event)
  | s, [] => .ok (s, [])
  | s, c :: rest =>
    match f s c with
    | .error e => .error e
    | .ok (s', evs) =>
      match creditLoop f s' rest with
      | .error e => .error e
      | .ok (s'', evs') => .ok (s'', evs ++ evs')

/-- Keeper.Send (send.go lines 22-45): per entry, sendEcocredits followed by
the transfer event. -/
def sendMsg (s : State) (m : MsgSend) : Except Err (State × List Event) :=
  creditLoop
    (fun st c =>
      match sendEcocredits st c m.recipient m.sender with
      | .error e => .error e
      | .ok (st', evs) =>
        .ok (st', evs ++ [Event.transfer m.sender m.recipient c.batchDenom
          c.tradableAmount c.retiredAmount]))
    s m.credits

/-- One entry of Keeper.Retire (core keeper source, part_001 lines 25-103):
resolve batch and precision, load the owner balance (any lookup failure is
wrapped as an invalid-request error), parse amount and tradable balance,
safe-subtract from tradable, parse and credit the retired balance, then move
the amount from the supply's tradable to its retired pool, both sides
persisted (the balance record again without an escrowed amount). -/
def retireOne (s : State) (owner : Addr) (credit : CreditsEntry) (jurisdiction : String) :
    Except Err (State × List Event) :=
  match getBatchByDenom s credit.batchDenom with
  | none => .error .invalidRequest
  | some batch =>
    match aget s.balances (owner, batch.key) with
    | none => .error .invalidRequest
    | some userBalance =>
      match parseAll batch.precision [credit.amount, userBalance.tradable] with
      | .error e => .error e
      | .ok _ =>
        match safeSub userBalance.tradable credit.amount with
        | .error e => .error e
        | .ok ut =>
          match parseNonNegFixed batch.precision userBalance.retired with
          | .error e => .error e
          | .ok ur0 =>
            match aget s.supplies batch.key with
            | none => .error .notFound
            | some batchSupply =>
              match parseAll batch.precision [batchSupply.retired, batchSupply.tradable] with
              | .error e => .error e
              | .ok _ =>
                match safeSub batchSupply.tradable credit.amount with
                | .error e => .error e
                | .ok supT =>
                  let nb := aset s.balances (owner, batch.key) ⟨ut, ur0 + credit.amount, 0⟩
                  let ns := aset s.supplies batch.key
                    ⟨supT, batchSupply.retired + credit.amount, batchSupply.cancelled⟩
                  .ok ({ s with balances := nb, supplies := ns },
                       [Event.retire owner credit.batchDenom credit.amount jurisdiction])

/-- Keeper.Retire over the whole message. -/
def retireMsg (s : State) (m : MsgRetire) : Except Err (State × List Event) :=
  creditLoop (fun st c => retireOne st m.owner c m.jurisdiction) s m.credits

/-- One entry of Keeper.Cancel (cancel.go lines 28-91): resolve batch and
precision, load owner balance and supply, parse amount, supply tradable,
balance tradable and supply cancelled, safe-subtract the amount from both
tradable pools, add it to the cancelled supply; the written balance record
copies the stored retired amount verbatim and drops the escrowed amount, the
written supply record copies the stored retired amount verbatim. -/
def cancelOne (s : State) (owner : Addr) (credit : CreditsEntry) (reason : String) :
    Except Err (State × List Event) :=
  match getBatchByDenom s credit.batchDenom with
  | none => .error .invalidRequest
  | some batch =>
    match aget s.balances (owner, batch.key) with
    | none => .error .invalidRequest
    | some userBalance =>
      match aget s.supplies batch.key with
      | none => .error .notFound
      | some batchSupply =>
        match parseAll batch.precision [credit.amount, batchSupply.tradable,
            userBalance.tradable, batchSupply.cancelled] with
        | .error e => .error e
        | .ok _ =>
          match safeSub userBalance.tradable credit.amount with
          | .error e => .error e
          | .ok ut =>
            match safeSub batchSupply.tradable credit.amount with
            | .error e => .error e
            | .ok supT =>
              let nb := aset s.balances (owner, batch.key) ⟨ut, userBalance.retired, 0⟩
              let ns := aset s.supplies batch.key
                ⟨supT, batchSupply.retired, batchSupply.cancelled + credit.amount⟩
              .ok ({ s with balances := nb, supplies := ns },
                   [Event.cancel owner credit.batchDenom credit.amount reason])

/-- Keeper.Cancel over the whole message. -/
def cancelMsg (s : State) (m : MsgCancel) : Except Err (State × List Event) :=
  creditLoop (fun st c => cancelOne st m.owner c m.reason) s m.credits

/-- The three balance-mutating operations of this core. -/
inductive Op where
  | send (m : MsgSend)
  | retire (m : MsgRetire)
  | cancel (m : MsgCancel)
  deriving DecidableEq, Repr

def applyOp (s : State) : Op → Except Err (State × List Event)
  | .send m => sendMsg s m
  | .retire m => retireMsg s m
  | .cancel m => cancelMsg s m

/-- A sequence of operations, each of which must succeed. -/
def applyOps : State → List Op → Except Err State
  | s, [] => .ok s
  | s, op :: rest =>
    match applyOp s op with
    | .error e => .error e
    | .ok (s', _) => applyOps s' rest

/-- Modelled from the spec: the surrounding execution environment (not among
the sources) applies an operation transactionally, discarding every state
write and every event when the operation fails. -/
def runTx (s : State) (r : Except Err (State × List Event)) : State × List Event :=
  match r with
  | .ok p => p
  | .error _ => (s, [])

/-- The per-batch state-wide sums of the global invariant: all holders'
tradable + retired + escrowed amounts for the batch. -/
def holderSum (s : State) (k : Nat) : ℚ :=
  (s.balances.filter (fun p => p.1.2 == k)).foldr
    (fun p acc => p.2.tradable + p.2.retired + p.2.escrowed + acc) 0

/-- Basket balances attributed to the batch (resolved by denom). -/
def basketSum (s : State) (k : Nat) : ℚ :=
  (s.baskets.filter (fun p => (getBatchByDenom s p.1).map BatchRec.key == some k)).foldr
    (fun p acc => p.2 + acc) 0

/-- Declared (stored) accounted supply of batch k: tradable + retired. -/
def declaredSupply (s : State) (k : Nat) : ℚ :=
  match aget s.supplies k with
  | some r => r.tradable + r.retired
  | none => 0

/-- The global invariant of spec section 3 for batch k. -/
abbrev supplyInvariant (s : State) (k : Nat) : Prop :=
  holderSum s k + basketSum s k = declaredSupply s k

/-- Tradable + retired + cancelled supply of batch k (0 when no record). -/
def supplySum (s : State) (k : Nat) : ℚ :=
  match aget s.supplies k with
  | some r => r.tradable + r.retired + r.cancelled
  | none => 0

/-- The per-batch comparison loop of validateSupply (genesis.go lines
359-367): iterate the calculated-supply map; a missing declared record fails
with a not-found error naming the batch, a differing value fails with an
invalid-coins error naming the batch. -/
def validateSupplyLoop (sup : List (Nat × ℚ)) : List (Nat × ℚ) → Except Err Unit
  | [] => .ok ()
  | (k, cs) :: rest =>
    match aget sup k with
    | some s => if s ≠ cs then .error (.supplyIncorrect k) else validateSupplyLoop sup rest
    | none => .error (.supplyNotFound k)

/-- validateSupply (genesis.go lines 352-370): the two global fast-path
checks, then the per-batch comparison over the calculated map.  The Go maps
are modelled as association lists; only whether an error is returned, and
which batch an error names, matter to the claims, and neither depends on
iteration order. -/
def validateSupply (batchIdToSupplyCal batchIdToSupply : List (Nat × ℚ)) : Except Err Unit :=
  if batchIdToSupplyCal.length = 0 ∧ batchIdToSupply.length > 0 then
    .error .supplyNoBalances
  else if batchIdToSupply.length = 0 ∧ batchIdToSupplyCal.length > 0 then
    .error .balancesNoSupply
  else validateSupplyLoop batchIdToSupply batchIdToSupplyCal

/-- Protobuf timestamps, modelled as seconds and nanoseconds; Compare is the
lexicographic three-way comparison the gogoproto library implements. -/
structure Ts where
  seconds : Int
  nanos : Int
  deriving DecidableEq, Repr

def tsCompare (a b : Ts) : Int :=
  if a.seconds > b.seconds then 1
  else if a.seconds < b.seconds then -1
  else if a.nanos > b.nanos then 1
  else if a.nanos < b.nanos then -1
  else 0

/-- The Batch message validated at genesis (the fields Batch.Validate in
genesis.go reads). -/
structure Batch where
  denom : String
  projectKey : Nat
  startDate : Option Ts
  endDate : Option Ts
  issuer : String
  deriving DecidableEq, Repr

/-- Batch.Validate (genesis.go lines 456-480).  ValidateBatchDenom is not
among the sources, so the denom check is a parameter; the issuer check
(bech32 round-trip through the SDK) fails exactly on an empty issuer and is
modelled so. -/
def Batch.Validate (denomOk : String → Bool) (b : Batch) : Except Err Unit :=
  if denomOk b.denom = false then .error .invalidRequest
  else if b.projectKey = 0 then .error .invalidRequest
  else
    match b.startDate with
    | none => .error .invalidRequest
    | some sd =>
      match b.endDate with
      | none => .error .invalidRequest
      | some ed =>
        if tsCompare ed sd ≠ 1 then .error .invalidRequest
        else if b.issuer = "" then .error .invalidRequest
        else .ok ()

/-- The success conditions of one sendEcocredits entry: the eight parsed
amounts are well-formed at the batch precision and the sender's tradable
balance covers both send components. -/
def SendOk (p : Nat) (c : SendCredits) (fb toB : BalRec) (sup : SupRec) : Prop :=
  NNFixed p toB.tradable ∧ NNFixed p toB.retired ∧
  NNFixed p fb.tradable ∧ NNFixed p fb.retired ∧
  NNFixed p c.tradableAmount ∧ NNFixed p c.retiredAmount ∧
  NNFixed p sup.tradable ∧ NNFixed p sup.retired ∧
  c.tradableAmount + c.retiredAmount ≤ fb.tradable

/-- The state and events a successful sendEcocredits entry produces, in
closed form. -/
def sendResult (s : State) (key : Nat) (c : SendCredits) (toA frA : Addr)
    (fb toB : BalRec) (sup : SupRec) : State × List Event :=
  let nb := aset (aset s.balances (toA, key)
      ⟨toB.tradable + c.tradableAmount, toB.retired + c.retiredAmount, 0⟩)
    (frA, key) ⟨fb.tradable - c.tradableAmount - c.retiredAmount, fb.retired, 0⟩
  if c.retiredAmount = 0 then ({ s with balances := nb }, [])
  else
    let ns := aset s.supplies key
      ⟨sup.tradable - c.retiredAmount, sup.retired + c.retiredAmount, sup.cancelled⟩
    ({ s with balances := nb, supplies := ns },
     [Event.retire toA c.batchDenom c.retiredAmount c.retirementJurisdiction])

/-- The success conditions of one Retire entry. -/
def RetireOk (p : Nat) (a : ℚ) (ub : BalRec) (sup : SupRec) : Prop :=
  NNFixed p a ∧ NNFixed p ub.tradable ∧ a ≤ ub.tradable ∧ NNFixed p ub.retired ∧
  NNFixed p sup.retired ∧ NNFixed p sup.tradable ∧ a ≤ sup.tradable

/-- The state and events a successful Retire entry produces, in closed
form. -/
def retireResult (s : State) (key : Nat) (owner : Addr) (c : CreditsEntry)
    (jur : String) (ub : BalRec) (sup : SupRec) : State × List Event :=
  let nb := aset s.balances (owner, key) ⟨ub.tradable - c.amount, ub.retired + c.amount, 0⟩
  let ns := aset s.supplies key
    ⟨sup.tradable - c.amount, sup.retired + c.amount, sup.cancelled⟩
  ({ s with balances := nb, supplies := ns },
   [Event.retire owner c.batchDenom c.amount jur])

/-- The success conditions of one Cancel entry. -/
def CancelOk (p : Nat) (a : ℚ) (ub : BalRec) (sup : SupRec) : Prop :=
  NNFixed p a ∧ NNFixed p sup.tradable ∧ NNFixed p ub.tradable ∧
  NNFixed p sup.cancelled ∧ a ≤ ub.tradable ∧ a ≤ sup.tradable

/-- The state and events a successful Cancel entry produces, in closed
form. -/
def cancelResult (s : State) (key : Nat) (owner : Addr) (c : CreditsEntry)
    (reason : String) (ub : BalRec) (sup : SupRec) : State × List Event :=
  let nb := aset s.balances (owner, key) ⟨ub.tradable - c.amount, ub.retired, 0⟩
  let ns := aset s.supplies key
    ⟨sup.tradable - c.amount, sup.retired, sup.cancelled + c.amount⟩
  ({ s with balances := nb, supplies := ns },
   [Event.cancel owner c.batchDenom c.amount reason])

/-- Non-negativity of one balance record. -/
def BalRec.nonnegRec (b : BalRec) : Prop :=
  0 ≤ b.tradable ∧ 0 ≤ b.retired ∧ 0 ≤ b.escrowed

/-- Non-negativity of one supply record. -/
def SupRec.nonnegRec (r : SupRec) : Prop :=
  0 ≤ r.tradable ∧ 0 ≤ r.retired ∧ 0 ≤ r.cancelled

/-- Non-negativity of every stored balance and supply field. -/
def State.nonneg (s : State) : Prop :=
  (∀ p ∈ s.balances, p.2.nonnegRec) ∧ (∀ p ∈ s.supplies, p.2.nonnegRec)

theorem safeSub_ok {a b : ℚ} (h : b ≤ a) : safeSub a b = .ok (a - b) := by
  unfold safeSub
  rw [if_neg (not_lt.mpr h)]

theorem safeSub_ok_inv {a b c : ℚ} (h : safeSub a b = .ok c) : b ≤ a ∧ c = a - b := by
  unfold safeSub at h
  by_cases hab : a < b
  · rw [if_pos hab] at h; cases h
  · rw [if_neg hab] at h
    exact ⟨not_lt.mp hab, (Except.ok.injEq _ _).mp h.symm⟩

theorem send_ok_spec (s : State) (c : SendCredits) (toA frA : Addr) (b : BatchRec)
    (fb : BalRec) (sup : SupRec)
    (hb : getBatchByDenom s c.batchDenom = some b)
    (hsup : aget s.supplies b.key = some sup)
    (hfb : aget s.balances (frA, b.key) = some fb)
    (hok : SendOk b.precision c fb ((aget s.balances (toA, b.key)).getD ⟨0, 0, 0⟩) sup) :
    sendEcocredits s c toA frA =
      .ok (sendResult s b.key c toA frA fb
        ((aget s.balances (toA, b.key)).getD ⟨0, 0, 0⟩) sup) := by
  obtain ⟨h1, h2, h3, h4, h5, h6, h7, h8, h9⟩ := hok
  have hct : c.tradableAmount ≤ fb.tradable := by
    have := h6.1; linarith
  have hcr : c.retiredAmount ≤ fb.tradable - c.tradableAmount := by linarith
  have hparse : parseAll b.precision
      [((aget s.balances (toA, b.key)).getD ⟨0, 0, 0⟩).tradable,
       ((aget s.balances (toA, b.key)).getD ⟨0, 0, 0⟩).retired,
       fb.tradable, fb.retired, c.tradableAmount, c.retiredAmount,
       sup.tradable, sup.retired] = .ok () := by
    rw [parseAll_ok]
    intro q hq
    simp only [List.mem_cons, List.not_mem_nil, or_false] at hq
    rcases hq with rfl | rfl | rfl | rfl | rfl | rfl | rfl | rfl <;> assumption
  unfold sendEcocredits sendResult
  rw [hb]
  simp only [hsup, hfb, hparse]
  by_cases h0 : c.tradableAmount = 0
  · by_cases h0r : c.retiredAmount = 0
    · simp [h0, h0r]
    · have hs2 : safeSub fb.tradable c.retiredAmount =
          .ok (fb.tradable - c.retiredAmount) := safeSub_ok (by linarith)
      simp [h0, h0r, hs2, decSub]
  · have hs1 : safeSub fb.tradable c.tradableAmount =
        .ok (fb.tradable - c.tradableAmount) := safeSub_ok hct
    by_cases h0r : c.retiredAmount = 0
    · simp [h0, h0r, hs1]
    · have hs2 : safeSub (fb.tradable - c.tradableAmount) c.retiredAmount =
          .ok (fb.tradable - c.tradableAmount - c.retiredAmount) := safeSub_ok hcr
      simp [h0, h0r, hs1, hs2, decSub]

theorem send_ok_inv {s : State} {c : SendCredits} {toA frA : Addr} {r : State × List Event}
    (h : sendEcocredits s c toA frA = .ok r) :
    ∃ b fb sup, getBatchByDenom s c.batchDenom = some b ∧
      aget s.supplies b.key = some sup ∧
      aget s.balances (frA, b.key) = some fb ∧
      SendOk b.precision c fb ((aget s.balances (toA, b.key)).getD ⟨0, 0, 0⟩) sup ∧
      r = sendResult s b.key c toA frA fb
        ((aget s.balances (toA, b.key)).getD ⟨0, 0, 0⟩) sup := by
  unfold sendEcocredits at h
  rcases hb : getBatchByDenom s c.batchDenom with _ | b <;> rw [hb] at h
  · simp at h
  dsimp only at h
  rcases hsup : aget s.supplies b.key with _ | sup <;> rw [hsup] at h
  · simp at h
  dsimp only at h
  rcases hfb : aget s.balances (frA, b.key) with _ | fb <;> rw [hfb] at h
  · simp at h
  dsimp only at h
  rcases hparse : parseAll b.precision
      [((aget s.balances (toA, b.key)).getD ⟨0, 0, 0⟩).tradable,
       ((aget s.balances (toA, b.key)).getD ⟨0, 0, 0⟩).retired,
       fb.tradable, fb.retired, c.tradableAmount, c.retiredAmount,
       sup.tradable, sup.retired] with e | u <;> rw [hparse] at h
  · simp at h
  cases u
  dsimp only at h
  have hnn := parseAll_ok.mp hparse
  have n1 := hnn ((aget s.balances (toA, b.key)).getD ⟨0, 0, 0⟩).tradable (by simp)
  have n2 := hnn ((aget s.balances (toA, b.key)).getD ⟨0, 0, 0⟩).retired (by simp)
  have n3 := hnn fb.tradable (by simp)
  have n4 := hnn fb.retired (by simp)
  have n5 := hnn c.tradableAmount (by simp)
  have n6 := hnn c.retiredAmount (by simp)
  have n7 := hnn sup.tradable (by simp)
  have n8 := hnn sup.retired (by simp)
  refine ⟨b, fb, sup, rfl, hsup, hfb, ?_⟩
  by_cases h0 : c.tradableAmount = 0
  · rw [if_pos h0] at h
    dsimp only at h
    by_cases h0r : c.retiredAmount = 0
    · rw [if_pos h0r] at h
      refine ⟨⟨n1, n2, n3, n4, n5, n6, n7, n8, by rw [h0, h0r]; simpa using n3.1⟩, ?_⟩
      unfold sendResult
      rw [if_pos h0r]
      simp only [Except.ok.injEq] at h
      rw [← h, h0, h0r]
      simp
    · rw [if_neg h0r] at h
      rcases hss : safeSub fb.tradable c.retiredAmount with e | ft2 <;> rw [hss] at h
      · simp at h
      dsimp only at h
      obtain ⟨hle2, rfl⟩ := safeSub_ok_inv hss
      refine ⟨⟨n1, n2, n3, n4, n5, n6, n7, n8, by rw [h0]; linarith⟩, ?_⟩
      unfold sendResult
      rw [if_neg h0r]
      simp only [Except.ok.injEq] at h
      rw [← h, h0]
      simp [decSub]
  · rw [if_neg h0] at h
    rcases hss1 : safeSub fb.tradable c.tradableAmount with e | ft1 <;> rw [hss1] at h
    · simp at h
    dsimp only at h
    obtain ⟨hle1, rfl⟩ := safeSub_ok_inv hss1
    by_cases h0r : c.retiredAmount = 0
    · rw [if_pos h0r] at h
      refine ⟨⟨n1, n2, n3, n4, n5, n6, n7, n8, by rw [h0r]; linarith⟩, ?_⟩
      unfold sendResult
      rw [if_pos h0r]
      simp only [Except.ok.injEq] at h
      rw [← h, h0r]
      simp
    · rw [if_neg h0r] at h
      rcases hss2 : safeSub (fb.tradable - c.tradableAmount) c.retiredAmount
        with e | ft2 <;> rw [hss2] at h
      · simp at h
      dsimp only at h
      obtain ⟨hle2, rfl⟩ := safeSub_ok_inv hss2
      refine ⟨⟨n1, n2, n3, n4, n5, n6, n7, n8, by linarith⟩, ?_⟩
      unfold sendResult
      rw [if_neg h0r]
      simp only [Except.ok.injEq] at h
      rw [← h]
      simp [decSub]

theorem retire_ok_spec (s : State) (owner : Addr) (c : CreditsEntry) (jur : String)
    (b : BatchRec) (ub : BalRec) (sup : SupRec)
    (hb : getBatchByDenom s c.batchDenom = some b)
    (hub : aget s.balances (owner, b.key) = some ub)
    (hsup : aget s.supplies b.key = some sup)
    (hok : RetireOk b.precision c.amount ub sup) :
    retireOne s owner c jur = .ok (retireResult s b.key owner c jur ub sup) := by
  obtain ⟨h1, h2, h3, h4, h5, h6, h7⟩ := hok
  have hp1 : parseAll b.precision [c.amount, ub.tradable] = .ok () := by
    rw [parseAll_ok]
    intro q hq
    simp only [List.mem_cons, List.not_mem_nil, or_false] at hq
    rcases hq with rfl | rfl <;> assumption
  have hp2 : parseAll b.precision [sup.retired, sup.tradable] = .ok () := by
    rw [parseAll_ok]
    intro q hq
    simp only [List.mem_cons, List.not_mem_nil, or_false] at hq
    rcases hq with rfl | rfl <;> assumption
  have hp3 : parseNonNegFixed b.precision ub.retired = .ok ub.retired :=
    parseNonNegFixed_ok.mpr ⟨h4, rfl⟩
  unfold retireOne retireResult
  rw [hb]
  simp only [hub, hp1, safeSub_ok h3, hp3, hsup, hp2, safeSub_ok h7]

theorem retire_ok_inv {s : State} {owner : Addr} {c : CreditsEntry} {jur : String}
    {r : State × List Event} (h : retireOne s owner c jur = .ok r) :
    ∃ b ub sup, getBatchByDenom s c.batchDenom = some b ∧
      aget s.balances (owner, b.key) = some ub ∧
      aget s.supplies b.key = some sup ∧
      RetireOk b.precision c.amount ub sup ∧
      r = retireResult s b.key owner c jur ub sup := by
  unfold retireOne at h
  rcases hb : getBatchByDenom s c.batchDenom with _ | b <;> rw [hb] at h
  · simp at h
  dsimp only at h
  rcases hub : aget s.balances (owner, b.key) with _ | ub <;> rw [hub] at h
  · simp at h
  dsimp only at h
  rcases hp1 : parseAll b.precision [c.amount, ub.tradable] with e | u <;> rw [hp1] at h
  · simp at h
  cases u
  dsimp only at h
  have hnn1 := parseAll_ok.mp hp1
  rcases hss1 : safeSub ub.tradable c.amount with e | ut <;> rw [hss1] at h
  · simp at h
  dsimp only at h
  obtain ⟨hle1, rfl⟩ := safeSub_ok_inv hss1
  rcases hp3 : parseNonNegFixed b.precision ub.retired with e | ur0 <;> rw [hp3] at h
  · simp at h
  dsimp only at h
  obtain ⟨hnn3, rfl⟩ := parseNonNegFixed_ok.mp hp3
  rcases hsup : aget s.supplies b.key with _ | sup <;> rw [hsup] at h
  · simp at h
  dsimp only at h
  rcases hp2 : parseAll b.precision [sup.retired, sup.tradable] with e | u <;> rw [hp2] at h
  · simp at h
  cases u
  dsimp only at h
  have hnn2 := parseAll_ok.mp hp2
  rcases hss2 : safeSub sup.tradable c.amount with e | supT <;> rw [hss2] at h
  · simp at h
  dsimp only at h
  obtain ⟨hle2, rfl⟩ := safeSub_ok_inv hss2
  refine ⟨b, ub, sup, rfl, hub, hsup,
    ⟨hnn1 c.amount (by simp), hnn1 ub.tradable (by simp), hle1, hnn3,
     hnn2 sup.retired (by simp), hnn2 sup.tradable (by simp), hle2⟩, ?_⟩
  simp only [Except.ok.injEq] at h
  rw [← h]
  unfold retireResult
  rfl

theorem cancel_ok_spec (s : State) (owner : Addr) (c : CreditsEntry) (reason : String)
    (b : BatchRec) (ub : BalRec) (sup : SupRec)
    (hb : getBatchByDenom s c.batchDenom = some b)
    (hub : aget s.balances (owner, b.key) = some ub)
    (hsup : aget s.supplies b.key = some sup)
    (hok : CancelOk b.precision c.amount ub sup) :
    cancelOne s owner c reason = .ok (cancelResult s b.key owner c reason ub sup) := by
  obtain ⟨h1, h2, h3, h4, h5, h6⟩ := hok
  have hp1 : parseAll b.precision
      [c.amount, sup.tradable, ub.tradable, sup.cancelled] = .ok () := by
    rw [parseAll_ok]
    intro q hq
    simp only [List.mem_cons, List.not_mem_nil, or_false] at hq
    rcases hq with rfl | rfl | rfl | rfl <;> assumption
  unfold cancelOne cancelResult
  rw [hb]
  simp only [hub, hsup, hp1, safeSub_ok h5, safeSub_ok h6]

theorem cancel_ok_inv {s : State} {owner : Addr} {c : CreditsEntry} {reason : String}
    {r : State × List Event} (h : cancelOne s owner c reason = .ok r) :
    ∃ b ub sup, getBatchByDenom s c.batchDenom = some b ∧
      aget s.balances (owner, b.key) = some ub ∧
      aget s.supplies b.key = some sup ∧
      CancelOk b.precision c.amount ub sup ∧
      r = cancelResult s b.key owner c reason ub sup := by
  unfold cancelOne at h
  rcases hb : getBatchByDenom s c.batchDenom with _ | b <;> rw [hb] at h
  · simp at h
  dsimp only at h
  rcases hub : aget s.balances (owner, b.key) with _ | ub <;> rw [hub] at h
  · simp at h
  dsimp only at h
  rcases hsup : aget s.supplies b.key with _ | sup <;> rw [hsup] at h
  · simp at h
  dsimp only at h
  rcases hp1 : parseAll b.precision [c.amount, sup.tradable, ub.tradable, sup.cancelled]
    with e | u <;> rw [hp1] at h
  · simp at h
  cases u
  dsimp only at h
  have hnn := parseAll_ok.mp hp1
  rcases hss1 : safeSub ub.tradable c.amount with e | ut <;> rw [hss1] at h
  · simp at h
  dsimp only at h
  obtain ⟨hle1, rfl⟩ := safeSub_ok_inv hss1
  rcases hss2 : safeSub sup.tradable c.amount with e | supT <;> rw [hss2] at h
  · simp at h
  dsimp only at h
  obtain ⟨hle2, rfl⟩ := safeSub_ok_inv hss2
  refine ⟨b, ub, sup, rfl, hub, hsup,
    ⟨hnn c.amount (by simp), hnn sup.tradable (by simp), hnn ub.tradable (by simp),
     hnn sup.cancelled (by simp), hle1, hle2⟩, ?_⟩
  simp only [Except.ok.injEq] at h
  rw [← h]
  unfold cancelResult
  rfl

theorem sendOne_supplySum {s : State} {c : SendCredits} {toA frA : Addr} {s' : State}
    {evs : List Event} (h : sendEcocredits s c toA frA = .ok (s', evs)) (k : Nat) :
    supplySum s' k = supplySum s k := by
  obtain ⟨b, fb, sup, hb, hsup, hfb, hok, heq⟩ := send_ok_inv h
  have hs' : s' = (sendResult s b.key c toA frA fb
      ((aget s.balances (toA, b.key)).getD ⟨0, 0, 0⟩) sup).1 := by
    rw [← heq]
  rw [hs']
  unfold sendResult
  by_cases h0r : c.retiredAmount = 0
  · simp only [if_pos h0r]
    rfl
  · simp only [if_neg h0r]
    unfold supplySum
    dsimp only
    by_cases hk : k = b.key
    · subst hk
      rw [aget_aset_eq, hsup]
      dsimp only
      ring
    · rw [aget_aset_ne _ _ _ _ (Ne.symm hk)]

theorem retireOne_supplySum {s : State} {owner : Addr} {c : CreditsEntry} {jur : String}
    {s' : State} {evs : List Event} (h : retireOne s owner c jur = .ok (s', evs)) (k : Nat) :
    supplySum s' k = supplySum s k := by
  obtain ⟨b, ub, sup, hb, hub, hsup, hok, heq⟩ := retire_ok_inv h
  have hs' : s' = (retireResult s b.key owner c jur ub sup).1 := by rw [← heq]
  rw [hs']
  unfold retireResult supplySum
  dsimp only
  by_cases hk : k = b.key
  · subst hk
    rw [aget_aset_eq, hsup]
    dsimp only
    ring
  · rw [aget_aset_ne _ _ _ _ (Ne.symm hk)]

theorem cancelOne_supplySum {s : State} {owner : Addr} {c : CreditsEntry} {reason : String}
    {s' : State} {evs : List Event} (h : cancelOne s owner c reason = .ok (s', evs)) (k : Nat) :
    supplySum s' k = supplySum s k := by
  obtain ⟨b, ub, sup, hb, hub, hsup, hok, heq⟩ := cancel_ok_inv h
  have hs' : s' = (cancelResult s b.key owner c reason ub sup).1 := by rw [← heq]
  rw [hs']
  unfold cancelResult supplySum
  dsimp only
  by_cases hk : k = b.key
  · subst hk
    rw [aget_aset_eq, hsup]
    dsimp only
    ring
  · rw [aget_aset_ne _ _ _ _ (Ne.symm hk)]

/-- Preservation of a reflexive transitive state relation along the per-entry
loop. -/
theorem creditLoop_preserves {α : Type} {f : State → α → Except Err (State × List Event)}
    (P : State → State → Prop)
    (hf : ∀ s c s' evs, f s c = .ok (s', evs) → P s s')
    (hrefl : ∀ s, P s s)
    (htrans : ∀ a b c, P a b → P b c → P a c) :
    ∀ (l : List α) (s s' : State) (evs : List Event),
      creditLoop f s l = .ok (s', evs) → P s s' := by
  intro l
  induction l with
  | nil =>
    intro s s' evs h
    unfold creditLoop at h
    simp only [Except.ok.injEq, Prod.mk.injEq] at h
    rw [← h.1]
    exact hrefl s
  | cons c rest ih =>
    intro s s' evs h
    unfold creditLoop at h
    rcases h1 : f s c with e | p <;> rw [h1] at h
    · simp at h
    obtain ⟨s1, evs1⟩ := p
    dsimp only at h
    rcases h2 : creditLoop f s1 rest with e | p2 <;> rw [h2] at h
    · simp at h
    obtain ⟨s2, evs2⟩ := p2
    dsimp only at h
    simp only [Except.ok.injEq, Prod.mk.injEq] at h
    obtain ⟨hs2, -⟩ := h
    exact htrans s s1 s' (hf s c s1 evs1 h1) (hs2 ▸ ih s1 s2 evs2 h2)

theorem applyOp_supplySum {s : State} {op : Op} {s' : State} {evs : List Event}
    (h : applyOp s op = .ok (s', evs)) (k : Nat) : supplySum s' k = supplySum s k := by
  cases op with
  | send m =>
    refine creditLoop_preserves (fun a b => ∀ k, supplySum b k = supplySum a k)
      ?_ (fun s k => rfl) (fun a b c h1 h2 k => (h2 k).trans (h1 k)) m.credits s s' evs h k
    intro st c st' evs' hf
    rcases hse : sendEcocredits st c m.recipient m.sender with e | p <;> rw [hse] at hf
    · simp at hf
    obtain ⟨st2, evs2⟩ := p
    dsimp only at hf
    simp only [Except.ok.injEq, Prod.mk.injEq] at hf
    intro k2
    rw [← hf.1]
    exact sendOne_supplySum hse k2
  | retire m =>
    refine creditLoop_preserves (fun a b => ∀ k, supplySum b k = supplySum a k)
      ?_ (fun s k => rfl) (fun a b c h1 h2 k => (h2 k).trans (h1 k)) m.credits s s' evs h k
    intro st c st' evs' hf
    intro k2
    exact retireOne_supplySum hf k2
  | cancel m =>
    refine creditLoop_preserves (fun a b => ∀ k, supplySum b k = supplySum a k)
      ?_ (fun s k => rfl) (fun a b c h1 h2 k => (h2 k).trans (h1 k)) m.credits s s' evs h k
    intro st c st' evs' hf
    intro k2
    exact cancelOne_supplySum hf k2

theorem forall_mem_aset {α β : Type} [DecidableEq α] {l : List (α × β)} {k : α} {v : β}
    {Q : β → Prop} (hl : ∀ p ∈ l, Q p.2) (hv : Q v) : ∀ p ∈ aset l k v, Q p.2 := by
  intro p hp
  rcases mem_aset hp with h | h
  · rw [h]
    exact hv
  · exact hl p h

/-- Non-negativity of the retired and cancelled fields of a supply record. -/
def SupRec.safeRC (r : SupRec) : Prop := 0 ≤ r.retired ∧ 0 ≤ r.cancelled

/-- The fields Send is able to keep non-negative: every balance field, and
the retired and cancelled supply fields (its supply tradable decrement is
unguarded). -/
def State.sendSafe (s : State) : Prop :=
  (∀ p ∈ s.balances, p.2.nonnegRec) ∧ (∀ p ∈ s.supplies, p.2.safeRC)

theorem nonnegRec_mk_bal {x y z : ℚ} :
    BalRec.nonnegRec ⟨x, y, z⟩ ↔ 0 ≤ x ∧ 0 ≤ y ∧ 0 ≤ z := Iff.rfl

theorem nonnegRec_mk_sup {x y z : ℚ} :
    SupRec.nonnegRec ⟨x, y, z⟩ ↔ 0 ≤ x ∧ 0 ≤ y ∧ 0 ≤ z := Iff.rfl

theorem retireOne_nonneg {s : State} {owner : Addr} {c : CreditsEntry} {jur : String}
    {s' : State} {evs : List Event} (hW : s.nonneg)
    (h : retireOne s owner c jur = .ok (s', evs)) : s'.nonneg := by
  obtain ⟨b, ub, sup, hb, hub, hsup, hok, heq⟩ := retire_ok_inv h
  obtain ⟨h1, h2, h3, h4, h5, h6, h7⟩ := hok
  have hs' : s' = (retireResult s b.key owner c jur ub sup).1 := by rw [← heq]
  rw [hs']
  unfold retireResult
  constructor
  · dsimp only
    refine forall_mem_aset hW.1 ?_
    rw [nonnegRec_mk_bal]
    exact ⟨by linarith, by linarith [h4.1, h1.1], le_refl 0⟩
  · dsimp only
    refine forall_mem_aset hW.2 ?_
    have hc : 0 ≤ sup.cancelled := (hW.2 _ (aget_mem hsup)).2.2
    rw [nonnegRec_mk_sup]
    exact ⟨by linarith, by linarith [h5.1, h1.1], hc⟩

theorem cancelOne_nonneg {s : State} {owner : Addr} {c : CreditsEntry} {reason : String}
    {s' : State} {evs : List Event} (hW : s.nonneg)
    (h : cancelOne s owner c reason = .ok (s', evs)) : s'.nonneg := by
  obtain ⟨b, ub, sup, hb, hub, hsup, hok, heq⟩ := cancel_ok_inv h
  obtain ⟨h1, h2, h3, h4, h5, h6⟩ := hok
  have hs' : s' = (cancelResult s b.key owner c reason ub sup).1 := by rw [← heq]
  rw [hs']
  unfold cancelResult
  have hubr : 0 ≤ ub.retired := (hW.1 _ (aget_mem hub)).2.1
  have hsr : 0 ≤ sup.retired := (hW.2 _ (aget_mem hsup)).2.1
  constructor
  · dsimp only
    refine forall_mem_aset hW.1 ?_
    rw [nonnegRec_mk_bal]
    exact ⟨by linarith, hubr, le_refl 0⟩
  · dsimp only
    refine forall_mem_aset hW.2 ?_
    rw [nonnegRec_mk_sup]
    exact ⟨by linarith, hsr, by linarith [h4.1, h1.1]⟩

theorem sendOne_sendSafe {s : State} {c : SendCredits} {toA frA : Addr}
    {s' : State} {evs : List Event} (hW : s.sendSafe)
    (h : sendEcocredits s c toA frA = .ok (s', evs)) : s'.sendSafe := by
  obtain ⟨b, fb, sup, hb, hsup, hfb, hok, heq⟩ := send_ok_inv h
  obtain ⟨h1, h2, h3, h4, h5, h6, h7, h8, h9⟩ := hok
  have hs' : s' = (sendResult s b.key c toA frA fb
      ((aget s.balances (toA, b.key)).getD ⟨0, 0, 0⟩) sup).1 := by rw [← heq]
  rw [hs']
  unfold sendResult
  have hbal : ∀ p ∈ aset (aset s.balances (toA, b.key)
      ⟨((aget s.balances (toA, b.key)).getD ⟨0, 0, 0⟩).tradable + c.tradableAmount,
       ((aget s.balances (toA, b.key)).getD ⟨0, 0, 0⟩).retired + c.retiredAmount, 0⟩)
      (frA, b.key) ⟨fb.tradable - c.tradableAmount - c.retiredAmount, fb.retired, 0⟩,
      p.2.nonnegRec := by
    refine forall_mem_aset (forall_mem_aset hW.1 ?_) ?_
    · rw [nonnegRec_mk_bal]
      exact ⟨by linarith [h1.1, h5.1], by linarith [h2.1, h6.1], le_refl 0⟩
    · rw [nonnegRec_mk_bal]
      exact ⟨by linarith, h4.1, le_refl 0⟩
  by_cases h0r : c.retiredAmount = 0
  · simp only [if_pos h0r]
    exact ⟨hbal, hW.2⟩
  · simp only [if_neg h0r]
    refine ⟨hbal, ?_⟩
    dsimp only
    refine forall_mem_aset hW.2 ?_
    have hc : 0 ≤ sup.cancelled := (hW.2 _ (aget_mem hsup)).2
    refine ⟨?_, ?_⟩ <;> dsimp only
    · linarith [h8.1, h6.1]
    · exact hc

theorem retireMsg_nonneg {s : State} {m : MsgRetire} {s' : State} {evs : List Event}
    (hW : s.nonneg) (h : retireMsg s m = .ok (s', evs)) : s'.nonneg := by
  refine creditLoop_preserves (fun a b => a.nonneg → b.nonneg) ?_ (fun _ hx => hx)
    (fun a b c h1 h2 hx => h2 (h1 hx)) m.credits s s' evs h hW
  intro st c st' evs' hf hst
  exact retireOne_nonneg hst hf

theorem cancelMsg_nonneg {s : State} {m : MsgCancel} {s' : State} {evs : List Event}
    (hW : s.nonneg) (h : cancelMsg s m = .ok (s', evs)) : s'.nonneg := by
  refine creditLoop_preserves (fun a b => a.nonneg → b.nonneg) ?_ (fun _ hx => hx)
    (fun a b c h1 h2 hx => h2 (h1 hx)) m.credits s s' evs h hW
  intro st c st' evs' hf hst
  exact cancelOne_nonneg hst hf

theorem sendMsg_sendSafe {s : State} {m : MsgSend} {s' : State} {evs : List Event}
    (hW : s.sendSafe) (h : sendMsg s m = .ok (s', evs)) : s'.sendSafe := by
  refine creditLoop_preserves (fun a b => a.sendSafe → b.sendSafe) ?_ (fun _ hx => hx)
    (fun a b c h1 h2 hx => h2 (h1 hx)) m.credits s s' evs h hW
  intro st c st' evs' hf hst
  rcases hse : sendEcocredits st c m.recipient m.sender with e | p <;> rw [hse] at hf
  · simp at hf
  obtain ⟨st2, evs2⟩ := p
  dsimp only at hf
  simp only [Except.ok.injEq, Prod.mk.injEq] at hf
  rw [← hf.1]
  exact sendOne_sendSafe hst hse

/-- A one-batch store used by the concrete runs: batch key 1, denom "B",
precision 0; holder 10 owns tradable 10, retired 0, escrowed 5; supply is
tradable 15, retired 0, cancelled 0 (the invariant holds: 10 + 0 + 5 = 15). -/
def exState : State :=
  ⟨[⟨1, "B", 0⟩], [((10, 1), ⟨10, 0, 5⟩)], [(1, ⟨15, 0, 0⟩)], []⟩

/-- The store after holder 10 sends 2 tradable credits to holder 20 from
exState: the sender record was rewritten without its escrowed amount. -/
def exSendRes : State :=
  ⟨[⟨1, "B", 0⟩], [((10, 1), ⟨8, 0, 0⟩), ((20, 1), ⟨2, 0, 0⟩)], [(1, ⟨15, 0, 0⟩)], []⟩

/-- The store after holder 10 retires 3 credits in exState. -/
def exRetireRes : State :=
  ⟨[⟨1, "B", 0⟩], [((10, 1), ⟨7, 3, 0⟩)], [(1, ⟨12, 3, 0⟩)], []⟩

/-- The store after holder 10 cancels 3 credits in exState. -/
def exCancelRes : State :=
  ⟨[⟨1, "B", 0⟩], [((10, 1), ⟨7, 0, 0⟩)], [(1, ⟨12, 0, 3⟩)], []⟩

/-- A store where the supply invariant is violated in Send's favour: holder
10 has tradable 10 but the batch supply records only tradable 5. -/
def negState : State :=
  ⟨[⟨1, "B", 0⟩], [((10, 1), ⟨10, 0, 0⟩)], [(1, ⟨5, 0, 0⟩)], []⟩

/-- The store negState after holder 10 sends 10 retired credits to holder
20: the supply tradable amount has been driven to -5 by the unguarded
subtraction. -/
def negStateRes : State :=
  ⟨[⟨1, "B", 0⟩], [((10, 1), ⟨0, 0, 0⟩), ((20, 1), ⟨0, 10, 0⟩)], [(1, ⟨-5, 10, 0⟩)], []⟩

/-- A store with a batch and a supply record but no balance record for the
sender. -/
def c7State : State :=
  ⟨[⟨1, "B", 0⟩], [], [(1, ⟨15, 0, 0⟩)], []⟩

/-- C1: the claim that every Send, Retire or Cancel preserves the global
equality (sum over holders of tradable+retired+escrowed plus basket
balances = supply tradable+retired) fails on the code: a successful Send
from a holder with a nonzero escrowed amount rewrites that holder's balance
record without an escrowed amount, so the stored escrow drops to zero and
the left-hand sum shrinks while the supply is untouched.  exState satisfies
the invariant (10+0+5 = 15), the Send of 2 tradable credits succeeds, and
the post-state sums to 10 against a supply of 15. -/
theorem C1_theorem :
    supplyInvariant exState 1 ∧
    sendEcocredits exState ⟨"B", 2, 0, ""⟩ 20 10 = .ok (exSendRes, []) ∧
    ¬ supplyInvariant exSendRes 1 := by
  refine ⟨?_, ?_, ?_⟩
  · norm_num [supplyInvariant, holderSum, basketSum, declaredSupply, exState, aget]
  · norm_num [sendEcocredits, exState, exSendRes, getBatchByDenom, aget, aset, parseAll,
      parseNonNegFixed, safeSub, decSub, List.find?, Prod.mk.injEq]
  · norm_num [supplyInvariant, holderSum, basketSum, declaredSupply, exSendRes, aget]

/-- C9: the claim that Send, Retire and Cancel leave the escrowed amount of
every balance record they write unchanged fails on the code: all three
write balance records whose struct literals omit EscrowedAmount, resetting
the stored escrow (here 5) to the zero value.  For each operation the
pre-state record is (10, 0, 5) and the written record carries escrow 0. -/
theorem C9_theorem :
    aget exState.balances (10, 1) = some ⟨10, 0, 5⟩ ∧
    retireOne exState 10 ⟨"B", 3⟩ "US" = .ok (exRetireRes, [Event.retire 10 "B" 3 "US"]) ∧
    aget exRetireRes.balances (10, 1) = some ⟨7, 3, 0⟩ ∧
    cancelOne exState 10 ⟨"B", 3⟩ "why" = .ok (exCancelRes, [Event.cancel 10 "B" 3 "why"]) ∧
    aget exCancelRes.balances (10, 1) = some ⟨7, 0, 0⟩ ∧
    sendEcocredits exState ⟨"B", 2, 0, ""⟩ 20 10 = .ok (exSendRes, []) ∧
    aget exSendRes.balances (10, 1) = some ⟨8, 0, 0⟩ := by
  refine ⟨by rfl, ?_, by rfl, ?_, by rfl, ?_, by rfl⟩
  · norm_num [retireOne, exState, exRetireRes, getBatchByDenom, aget, aset, parseAll,
      parseNonNegFixed, safeSub, List.find?, Prod.mk.injEq]
  · norm_num [cancelOne, exState, exCancelRes, getBatchByDenom, aget, aset, parseAll,
      parseNonNegFixed, safeSub, List.find?, Prod.mk.injEq]
  · norm_num [sendEcocredits, exState, exSendRes, getBatchByDenom, aget, aset, parseAll,
      parseNonNegFixed, safeSub, decSub, List.find?, Prod.mk.injEq]

/-- C4 counterexample: the claim that no protocol operation ever produces a
negative supply field, with every subtraction going through safeSub, fails
on the code: Send's retirement branch decrements the supply tradable amount
with the unguarded Dec.Sub (send.go line 118), so from a pre-state whose
supply undercounts the sender's balance a successful Send writes supply
tradable -5. -/
theorem C4_counterexample :
    sendEcocredits negState ⟨"B", 0, 10, "US"⟩ 20 10 =
      .ok (negStateRes, [Event.retire 20 "B" 10 "US"]) ∧
    aget negStateRes.supplies 1 = some ⟨-5, 10, 0⟩ ∧ ((-5 : ℚ) < 0) := by
  refine ⟨?_, by rfl, by norm_num⟩
  norm_num [sendEcocredits, negState, negStateRes, getBatchByDenom, aget, aset, parseAll,
    parseNonNegFixed, safeSub, decSub, List.find?, Prod.mk.injEq]

/-- C6 counterexample: the claim that a batch key present in one map and
absent in the other fails validation whenever the present side is non-zero
is false: validateSupply iterates only the calculated map, so a declared
supply of 10 for batch 2 with no balances passes as long as some other
batch has balances. -/
theorem C6_counterexample :
    validateSupply [(1, 5)] [(1, 5), (2, 10)] = .ok () ∧
    aget [((1 : Nat), (5 : ℚ))] 2 = none ∧
    aget [((1 : Nat), (5 : ℚ)), (2, 10)] 2 = some 10 ∧ ((10 : ℚ) ≠ 0) := by
  refine ⟨by rfl, by rfl, by rfl, by norm_num⟩

/-- C7 counterexample: a Send entry whose sender has no balance record for
the batch fails with the insufficient-credits error
(ecocredit.ErrInsufficientCredits, send.go line 65), not with a
NotFound-kind error as claimed. -/
theorem C7_counterexample :
    c7State.balances = [] ∧
    sendEcocredits c7State ⟨"B", 1, 0, ""⟩ 20 10 = .error .insufficientCredits ∧
    Err.insufficientCredits ≠ Err.notFound := by
  refine ⟨rfl, by rfl, by decide⟩

/-- C10 counterexample: Validate returning no error is not equivalent to
endDate > startDate for every batch with both dates present: this batch has
endDate after startDate yet fails validation because its project key is
zero. -/
theorem C10_counterexample :
    Batch.Validate (fun _ => true) ⟨"X", 0, some ⟨1, 0⟩, some ⟨2, 0⟩, "i"⟩ =
      .error .invalidRequest ∧
    tsCompare ⟨2, 0⟩ ⟨1, 0⟩ = 1 := by
  refine ⟨by rfl, by rfl⟩

theorem NNFixed_nat (p n : Nat) : NNFixed p (n : ℚ) := by
  refine ⟨by positivity, ?_⟩
  have h : ((n : ℚ) * (10 : ℚ) ^ p) = ((n * 10 ^ p : ℕ) : ℚ) := by
    push_cast
    ring
  rw [h, Rat.den_natCast]

/-- C2: with batch precision 2 and a sender balance of 100 tradable, a Send
entry of 30 tradable and 10 retired credits to a recipient without a balance
record succeeds and leaves the sender at 60 tradable, the recipient at 30
tradable and 10 retired, decreases the supply tradable amount by 10 and
increases the supply retired amount by 10 (cancelled untouched). -/
theorem C2_theorem (s : State) (b : BatchRec) (d j : String) (toA frA : Addr)
    (es st sr sc : ℚ)
    (hp : b.precision = 2)
    (hb : getBatchByDenom s d = some b)
    (hsup : aget s.supplies b.key = some ⟨st, sr, sc⟩)
    (hfb : aget s.balances (frA, b.key) = some ⟨100, 0, es⟩)
    (hto : aget s.balances (toA, b.key) = none)
    (hst : NNFixed 2 st) (hsr : NNFixed 2 sr) :
    sendEcocredits s ⟨d, 30, 10, j⟩ toA frA =
      .ok (State.mk s.batches
        (aset (aset s.balances (toA, b.key) ⟨30, 10, 0⟩) (frA, b.key) ⟨60, 0, 0⟩)
        (aset s.supplies b.key ⟨st - 10, sr + 10, sc⟩) s.baskets,
        [Event.retire toA d 10 j]) := by
  have hok : SendOk b.precision ⟨d, 30, 10, j⟩ ⟨100, 0, es⟩
      ((aget s.balances (toA, b.key)).getD ⟨0, 0, 0⟩) ⟨st, sr, sc⟩ := by
    rw [hto, hp]
    refine ⟨by simpa using NNFixed_nat 2 0, by simpa using NNFixed_nat 2 0,
      by simpa using NNFixed_nat 2 100, by simpa using NNFixed_nat 2 0,
      by simpa using NNFixed_nat 2 30, by simpa using NNFixed_nat 2 10,
      hst, hsr, by norm_num⟩
  have hrw := send_ok_spec s ⟨d, 30, 10, j⟩ toA frA b ⟨100, 0, es⟩ ⟨st, sr, sc⟩
    hb hsup hfb hok
  rw [hrw, hto]
  norm_num [sendResult]

/-- The one-batch precision-2 store of the C2 scenario run. -/
def c2State : State :=
  ⟨[⟨1, "D", 2⟩], [((10, 1), ⟨100, 0, 0⟩)], [(1, ⟨100, 0, 0⟩)], []⟩

theorem C2_witness :
    sendEcocredits c2State ⟨"D", 30, 10, "US"⟩ 20 10 =
      .ok (State.mk c2State.batches
        (aset (aset c2State.balances (20, 1) ⟨30, 10, 0⟩) (10, 1) ⟨60, 0, 0⟩)
        (aset c2State.supplies 1 ⟨100 - 10, 0 + 10, 0⟩) c2State.baskets,
        [Event.retire 20 "D" 10 "US"]) :=
  C2_theorem c2State ⟨1, "D", 2⟩ "D" "US" 20 10 0 100 0 0 rfl (by rfl) (by rfl) (by rfl)
    (by rfl) (by simpa using NNFixed_nat 2 100) (by simpa using NNFixed_nat 2 0)

/-- C3: the quantity supply tradable + retired + cancelled of every batch is
invariant under any sequence of successful Send, Retire and Cancel
operations. -/
theorem C3_theorem (s : State) (ops : List Op) (s' : State)
    (h : applyOps s ops = .ok s') (k : Nat) : supplySum s' k = supplySum s k := by
  induction ops generalizing s with
  | nil =>
    unfold applyOps at h
    simp only [Except.ok.injEq] at h
    rw [← h]
  | cons op rest ih =>
    unfold applyOps at h
    rcases h1 : applyOp s op with e | p <;> rw [h1] at h
    · simp at h
    obtain ⟨s1, evs1⟩ := p
    dsimp only at h
    exact (ih s1 h).trans (applyOp_supplySum h1 k)

/-- The one-batch store of the C3 sequence run. -/
def c3State : State :=
  ⟨[⟨1, "B", 0⟩], [((10, 1), ⟨10, 0, 0⟩)], [(1, ⟨10, 0, 0⟩)], []⟩

/-- The C3 sequence: a Send with retirement, then a Retire, then a Cancel. -/
def c3Ops : List Op :=
  [.send ⟨10, 20, [⟨"B", 2, 1, "US"⟩]⟩, .retire ⟨20, [⟨"B", 1⟩], "US"⟩,
   .cancel ⟨10, [⟨"B", 1⟩], "r"⟩]

/-- The store after running c3Ops on c3State. -/
def c3Post : State :=
  ⟨[⟨1, "B", 0⟩], [((10, 1), ⟨6, 0, 0⟩), ((20, 1), ⟨1, 2, 0⟩)], [(1, ⟨7, 2, 1⟩)], []⟩

theorem C3_witness : supplySum c3Post 1 = supplySum c3State 1 := by
  refine C3_theorem c3State c3Ops c3Post ?_ 1
  norm_num [applyOps, applyOp, c3State, c3Ops, c3Post, sendMsg, retireMsg, cancelMsg,
    creditLoop, sendEcocredits, retireOne, cancelOne, getBatchByDenom, aget, aset,
    parseAll, parseNonNegFixed, safeSub, decSub, List.find?, Prod.mk.injEq]

/-- C5: when a (multi-entry) Send, Retire or Cancel operation fails, the
transactional execution environment leaves every record at its pre-call
state and emits no event. -/
theorem C5_theorem (s : State) (op : Op) (e : Err) (h : applyOp s op = .error e) :
    runTx s (applyOp s op) = (s, []) := by
  rw [h]
  rfl

/-- A two-entry Send whose first entry succeeds and whose second entry names
an unknown batch denom. -/
def c5Op : Op := .send ⟨10, 20, [⟨"B", 2, 0, ""⟩, ⟨"NOPE", 1, 0, ""⟩]⟩

theorem C5_witness : runTx exState (applyOp exState c5Op) = (exState, []) := by
  refine C5_theorem exState c5Op .invalidRequest ?_
  have hBN : (("B" : String) == "NOPE") = false := by rfl
  norm_num [applyOp, c5Op, exState, sendMsg, creditLoop, sendEcocredits, getBatchByDenom,
    aget, aset, parseAll, parseNonNegFixed, safeSub, decSub, List.find?, Prod.mk.injEq, hBN]

/-- C8: a successful Send entry with zero retired amount does not write the
supply record at all (all three supply fields unchanged), and the cancelled
supply amount is unchanged by every successful Send entry. -/
theorem C8_theorem (s : State) (c : SendCredits) (toA frA : Addr) (s' : State)
    (evs : List Event) (h : sendEcocredits s c toA frA = .ok (s', evs)) :
    (c.retiredAmount = 0 → s'.supplies = s.supplies) ∧
    (∀ k, (aget s'.supplies k).map SupRec.cancelled =
      (aget s.supplies k).map SupRec.cancelled) := by
  obtain ⟨b, fb, sup, hb, hsup, hfb, hok, heq⟩ := send_ok_inv h
  have hs' : s' = (sendResult s b.key c toA frA fb
      ((aget s.balances (toA, b.key)).getD ⟨0, 0, 0⟩) sup).1 := by rw [← heq]
  rw [hs']
  unfold sendResult
  by_cases h0r : c.retiredAmount = 0
  · simp [if_pos h0r]
  · simp only [if_neg h0r]
    refine ⟨fun hc => absurd hc h0r, fun k => ?_⟩
    show (aget (aset s.supplies b.key _) k).map SupRec.cancelled = _
    by_cases hk : k = b.key
    · subst hk
      rw [aget_aset_eq, hsup]
      rfl
    · rw [aget_aset_ne _ _ _ _ (Ne.symm hk)]

theorem C8_witness : exSendRes.supplies = exState.supplies := by
  refine (C8_theorem exState ⟨"B", 2, 0, ""⟩ 20 10 exSendRes [] ?_).1 rfl
  norm_num [sendEcocredits, exState, exSendRes, getBatchByDenom, aget, aset, parseAll,
    parseNonNegFixed, safeSub, decSub, List.find?, Prod.mk.injEq]

/-- C7 (amended): a Send entry whose sender has no balance record fails with
the insufficient-credits error, while a recipient with no balance record is
treated as an all-zero balance and the entry proceeds. -/
theorem C7_theorem :
    (∀ (s : State) (c : SendCredits) (toA frA : Addr) (b : BatchRec) (sup : SupRec),
      getBatchByDenom s c.batchDenom = some b →
      aget s.supplies b.key = some sup →
      aget s.balances (frA, b.key) = none →
      sendEcocredits s c toA frA = .error .insufficientCredits) ∧
    (∀ (s : State) (c : SendCredits) (toA frA : Addr) (b : BatchRec) (fb : BalRec)
      (sup : SupRec),
      getBatchByDenom s c.batchDenom = some b →
      aget s.supplies b.key = some sup →
      aget s.balances (frA, b.key) = some fb →
      aget s.balances (toA, b.key) = none →
      SendOk b.precision c fb ⟨0, 0, 0⟩ sup →
      sendEcocredits s c toA frA =
        .ok (sendResult s b.key c toA frA fb ⟨0, 0, 0⟩ sup)) := by
  constructor
  · intro s c toA frA b sup hb hsup hfb
    unfold sendEcocredits
    rw [hb]
    simp only [hsup, hfb]
  · intro s c toA frA b fb sup hb hsup hfb hto hok
    have hr := send_ok_spec s c toA frA b fb sup hb hsup hfb (by rw [hto]; exact hok)
    rw [hto] at hr
    exact hr

theorem C7_witness :
    sendEcocredits c7State ⟨"B", 1, 0, ""⟩ 20 10 = .error .insufficientCredits :=
  C7_theorem.1 c7State ⟨"B", 1, 0, ""⟩ 20 10 ⟨1, "B", 0⟩ ⟨15, 0, 0⟩ (by rfl) (by rfl) (by rfl)

theorem validateSupplyLoop_ok (sup cal : List (Nat × ℚ)) :
    validateSupplyLoop sup cal = .ok () ↔ ∀ p ∈ cal, aget sup p.1 = some p.2 := by
  induction cal with
  | nil => simp [validateSupplyLoop]
  | cons hd rest ih =>
    obtain ⟨k, cs⟩ := hd
    unfold validateSupplyLoop
    rcases hg : aget sup k with _ | sv
    · dsimp only
      constructor
      · intro h
        cases h
      · intro h
        have := h (k, cs) (List.mem_cons_self _ _)
        rw [hg] at this
        cases this
    · dsimp only
      by_cases hne : sv ≠ cs
      · rw [if_pos hne]
        constructor
        · intro h
          cases h
        · intro h
          have := h (k, cs) (List.mem_cons_self _ _)
          rw [hg] at this
          injection this with hsv
          exact (hne hsv).elim
      · rw [if_neg hne]
        push_neg at hne
        subst hne
        rw [ih]
        constructor
        · intro h p hp
          rcases List.mem_cons.mp hp with rfl | hp'
          · exact hg
          · exact h p hp'
        · intro h p hp
          exact h p (List.mem_cons_of_mem _ hp)

/-- C6 (amended): the two global fast-path checks behave as claimed (including
Scenario D), and the per-batch comparison iterates only the calculated map:
a calculated entry fails against a missing declared record with a not-found
error naming the batch and against a differing declared value with a
supply-incorrect error naming the batch, but when both maps are non-empty
validation succeeds exactly when every calculated entry matches its declared
record - a declared key absent from the calculated map is never examined. -/
theorem C6_theorem :
    (∀ sup : List (Nat × ℚ), sup ≠ [] → validateSupply [] sup = .error .supplyNoBalances) ∧
    (∀ cal : List (Nat × ℚ), cal ≠ [] → validateSupply cal [] = .error .balancesNoSupply) ∧
    (∀ cal sup : List (Nat × ℚ), cal ≠ [] → sup ≠ [] →
      (validateSupply cal sup = .ok () ↔ ∀ p ∈ cal, aget sup p.1 = some p.2)) ∧
    (∀ (k : Nat) (cs sv : ℚ) (rest sup : List (Nat × ℚ)), sup ≠ [] →
      aget sup k = some sv → sv ≠ cs →
      validateSupply ((k, cs) :: rest) sup = .error (.supplyIncorrect k)) ∧
    (∀ (k : Nat) (cs : ℚ) (rest sup : List (Nat × ℚ)), sup ≠ [] →
      aget sup k = none →
      validateSupply ((k, cs) :: rest) sup = .error (.supplyNotFound k)) ∧
    validateSupply [] [(1, 100)] = .error .supplyNoBalances := by
  have hfast : ∀ (cal sup : List (Nat × ℚ)), cal ≠ [] → sup ≠ [] →
      validateSupply cal sup = validateSupplyLoop sup cal := by
    intro cal sup hc hs
    unfold validateSupply
    rw [if_neg, if_neg]
    · rintro ⟨h1, -⟩
      exact hs (List.length_eq_zero.mp h1)
    · rintro ⟨h1, -⟩
      exact hc (List.length_eq_zero.mp h1)
  refine ⟨?_, ?_, ?_, ?_, ?_, ?_⟩
  · intro sup hs
    unfold validateSupply
    rw [if_pos ⟨rfl, List.length_pos.mpr hs⟩]
  · intro cal hc
    unfold validateSupply
    rw [if_neg, if_pos ⟨rfl, List.length_pos.mpr hc⟩]
    rintro ⟨h1, -⟩
    exact hc (List.length_eq_zero.mp h1)
  · intro cal sup hc hs
    rw [hfast cal sup hc hs]
    exact validateSupplyLoop_ok sup cal
  · intro k cs sv rest sup hs hg hne
    rw [hfast _ sup (by simp) hs]
    unfold validateSupplyLoop
    rw [hg]
    dsimp only
    rw [if_pos hne]
  · intro k cs rest sup hs hg
    rw [hfast _ sup (by simp) hs]
    unfold validateSupplyLoop
    rw [hg]
  · unfold validateSupply
    rw [if_pos ⟨rfl, by norm_num⟩]

theorem C6_witness : validateSupply [(1, 5)] [(1, 5)] = .ok () :=
  (C6_theorem.2.2.1 [(1, 5)] [(1, 5)] (by decide) (by decide)).mpr (by
    intro p hp
    simp only [List.mem_singleton] at hp
    subst hp
    rfl)

theorem tsCompare_self (a : Ts) : tsCompare a a = 0 := by
  simp [tsCompare]

/-- C10 (amended): with both dates present, Batch.Validate accepts only when
the end date is strictly after the start date (equal dates are rejected),
and among batches that also pass the denom, project-key and issuer checks it
accepts exactly when the end date is strictly after the start date. -/
theorem C10_theorem (denomOk : String → Bool) (b : Batch) (sd ed : Ts)
    (hsd : b.startDate = some sd) (hed : b.endDate = some ed) :
    (Batch.Validate denomOk b = .ok () → tsCompare ed sd = 1) ∧
    (ed = sd → Batch.Validate denomOk b ≠ .ok ()) ∧
    (denomOk b.denom = true → b.projectKey ≠ 0 → b.issuer ≠ "" →
      (Batch.Validate denomOk b = .ok () ↔ tsCompare ed sd = 1)) := by
  have hfwd : Batch.Validate denomOk b = .ok () → tsCompare ed sd = 1 := by
    intro h
    unfold Batch.Validate at h
    by_cases hd : denomOk b.denom = false
    · rw [if_pos hd] at h
      cases h
    rw [if_neg hd] at h
    by_cases hpk : b.projectKey = 0
    · rw [if_pos hpk] at h
      cases h
    rw [if_neg hpk, hsd] at h
    dsimp only at h
    rw [hed] at h
    dsimp only at h
    by_cases ht : tsCompare ed sd ≠ 1
    · rw [if_pos ht] at h
      cases h
    · exact not_not.mp ht
  refine ⟨hfwd, ?_, ?_⟩
  · intro heq h
    have h1 := hfwd h
    rw [heq, tsCompare_self] at h1
    cases h1
  · intro hdok hpk hiss
    refine ⟨hfwd, ?_⟩
    intro hcmp
    unfold Batch.Validate
    rw [if_neg (by simp [hdok]), if_neg hpk, hsd]
    dsimp only
    rw [hed]
    dsimp only
    rw [if_neg (not_not.mpr hcmp), if_neg hiss]

theorem C10_witness :
    Batch.Validate (fun _ => true) ⟨"X", 3, some ⟨1, 0⟩, some ⟨2, 0⟩, "i"⟩ = .ok () :=
  ((C10_theorem (fun _ => true) ⟨"X", 3, some ⟨1, 0⟩, some ⟨2, 0⟩, "i"⟩ ⟨1, 0⟩ ⟨2, 0⟩
    rfl rfl).2.2 rfl (by decide) (by decide)).mpr (by rfl)

/-- C4 (amended): every balance field a Retire or Cancel writes, and every
field of its supply records, stays non-negative from a non-negative
pre-state; Send keeps every balance field non-negative and the retired and
cancelled supply fields non-negative, but its supply tradable amount is
decremented without the safeSub guard (see the counterexample). -/
theorem C4_theorem :
    (∀ (s : State) (m : MsgRetire) (s' : State) (evs : List Event),
      s.nonneg → retireMsg s m = .ok (s', evs) → s'.nonneg) ∧
    (∀ (s : State) (m : MsgCancel) (s' : State) (evs : List Event),
      s.nonneg → cancelMsg s m = .ok (s', evs) → s'.nonneg) ∧
    (∀ (s : State) (m : MsgSend) (s' : State) (evs : List Event),
      s.sendSafe → sendMsg s m = .ok (s', evs) → s'.sendSafe) :=
  ⟨fun _ _ _ _ hW h => retireMsg_nonneg hW h,
   fun _ _ _ _ hW h => cancelMsg_nonneg hW h,
   fun _ _ _ _ hW h => sendMsg_sendSafe hW h⟩

theorem C4_witness : exRetireRes.nonneg := by
  refine C4_theorem.1 exState ⟨10, [⟨"B", 3⟩], "US"⟩ exRetireRes
    [Event.retire 10 "B" 3 "US"] ?_ ?_
  · refine ⟨?_, ?_⟩ <;> intro p hp <;>
      simp only [exState, List.mem_singleton] at hp <;> rw [hp] <;>
      exact ⟨by norm_num, by norm_num, by norm_num⟩
  · norm_num [retireMsg, creditLoop, retireOne, exState, exRetireRes, getBatchByDenom,
      aget, aset, parseAll, parseNonNegFixed, safeSub, List.find?, Prod.mk.injEq]

end RegenLedger
